import Mathlib

/-!
Shallow embedding of `unimoddb` (src/unimoddb/unimoddb.py), the UniMod
PTM-database reader, together with theorems checking the specification's
claims about it.

Modelling conventions:
* SQLite tables become Lean lists of rows kept in insertion (rowid) order;
  `fetchone` on an unordered `SELECT` is the first row in that order
  (`List.find?`), matching the spec's "first match by underlying storage
  order" tie-break.
* SQLite REAL values become `ℚ` (the claims are about which stored value is
  returned and about inclusive range bounds, not about binary rounding).
* Python exceptions become `Except PyErr`; `ModificationNotFoundException`
  is `.notFound`, `ValueError` is `.valueError` (the spec's `NotFound` and
  `InvalidArgument`), and an SQLite error raised for a malformed or
  ambiguous interpolated query is `.operationalError`.
* `functools.lru_cache` memoisation is not modelled: the memoised methods
  are pure functions of the (immutable, post-load) store, so caching does
  not change any observable result the claims talk about.
-/

set_option autoImplicit false

deriving instance DecidableEq for Except

namespace Unimoddb

/-- Python exception kinds raised by `unimoddb.py`. -/
inductive PyErr where
  /-- `ModificationNotFoundException` (the spec's `NotFound`). -/
  | notFound
  /-- `ValueError`, raised by `_get_mass_col` for a bad `mass_type`
  (the spec's `InvalidArgument`) and by `int()` on a malformed count. -/
  | valueError
  /-- `sqlite3` error for a query made malformed or ambiguous by the
  interpolated `filter_class` string in `get_mods`. -/
  | operationalError
deriving DecidableEq, Repr

/-- A row of the `mods` table
(`mod_id integer PRIMARY KEY, name text, full_name text, mono_mass real,
avg_mass real, composition text`, unimoddb.py lines 81-86). -/
structure ModRow where
  mod_id : Int
  name : String
  full_name : String
  mono_mass : ℚ
  avg_mass : ℚ
  composition : String
deriving DecidableEq, Repr

/-- A row of the `mod_sites` table
(`mod_id integer, site text, classification text`, lines 93-97). -/
structure SiteRow where
  mod_id : Int
  site : String
  classification : String
deriving DecidableEq, Repr

/-- The persisted store once the `mods` table exists: both tables, rows in
rowid (insertion) order. -/
structure DB where
  mods : List ModRow
  mod_sites : List SiteRow
deriving DecidableEq, Repr

/-- One `<mod>` element of the external XML feed, restricted to the fields
`_initialize` reads (lines 104-125): `record_id`, `title`, `full_name`,
`delta/@mono_mass`, `delta/@avge_mass`, `delta/@composition`, and the
`(site, classification)` pairs of its `<specificity>` children.
`record_id` is stored into the `INTEGER` column `mod_id`, whose affinity
converts the numeric text; it is therefore modelled as `Int`. -/
structure XmlRecord where
  record_id : Int
  title : String
  full_name : String
  mono_mass : ℚ
  avge_mass : ℚ
  composition : String
  specificity : List (String × String)
deriving DecidableEq, Repr

/-- Python `str.lower()` modelled character-wise (its effect on the ASCII
names of the feed). -/
def pyLower (s : String) : String := String.mk (s.data.map Char.toLower)

/-- The `mods` row inserted for one feed record (lines 107-116): the full
name is stored lower-cased (`element.get('full_name').replace('' '', '')
.lower()`; the `replace` call's needle is the empty string, so it is the
identity and only `.lower()` has an effect). -/
def loadRecordMods (x : XmlRecord) : ModRow :=
  { mod_id := x.record_id
    name := x.title
    full_name := pyLower x.full_name
    mono_mass := x.mono_mass
    avg_mass := x.avge_mass
    composition := x.composition }

/-- The `mod_sites` rows inserted for one feed record (lines 118-125). -/
def loadRecordSites (x : XmlRecord) : List SiteRow :=
  x.specificity.map (fun sc => { mod_id := x.record_id, site := sc.1, classification := sc.2 })

/-- Model of `UnimodDB._initialize` (lines 75-127): creates the schema and
inserts one `mods` row and the attached `mod_sites` rows per feed record,
in feed order.  (Named `_initialize_store` here; the source method is
`_initialize`.) -/
def _initialize_store (feed : List XmlRecord) : DB :=
  { mods := feed.map loadRecordMods
    mod_sites := feed.flatMap loadRecordSites }

/-- The cache-reuse decision of `UnimodDB.__init__` (lines 59-64): the
constructor asks `sqlite_master` whether the table `mods` already exists at
the store location; only if it does not is `_initialize` run.  The store
location's prior contents are `none` (no `mods` table yet) or `some db`
(an initialized store).  The returned `Bool` records whether the Loader
(`_initialize`, with its XML parse) ran. -/
def construct (feed : List XmlRecord) (store : Option DB) : DB × Bool :=
  match store with
  | some db => (db, false)
  | none => (_initialize_store feed, true)

/-- Model of `UnimodDB._get_mass_col` (lines 318-338): maps `'mono'`/`'avg'` to the
column name, raising `ValueError` otherwise. -/
def _get_mass_col (mass_type : String) : Except PyErr String :=
  if mass_type = "mono" ∨ mass_type = "avg" then .ok (mass_type ++ "_mass")
  else .error .valueError

/-- Evaluation of `row[col]` for the two mass columns. -/
def rowMass (col : String) (r : ModRow) : ℚ :=
  if col = "mono_mass" then r.mono_mass else r.avg_mass

/-- Model of `UnimodDB._get_row_by_name` (lines 129-158): `fetchone` on
`WHERE name=?`, then `fetchone` on `WHERE full_name=?` with the argument
lower-cased, then `ModificationNotFoundException`. -/
def _get_row_by_name (db : DB) (name : String) : Except PyErr ModRow :=
  match db.mods.find? (fun r => decide (r.name = name)) with
  | some r => .ok r
  | none =>
    match db.mods.find? (fun r => decide (r.full_name = pyLower name)) with
    | some r => .ok r
    | none => .error .notFound

/-- Model of `UnimodDB.get_mass` (lines 160-177).  Python evaluates
`self._get_row_by_name(name)` before `self._get_mass_col(mass_type)` in
`self._get_row_by_name(name)[self._get_mass_col(mass_type)]`, so name
resolution happens first. -/
def get_mass (db : DB) (name : String) (mass_type : String := "mono") : Except PyErr ℚ := do
  let row ← _get_row_by_name db name
  let col ← _get_mass_col mass_type
  pure (rowMass col row)

/-- Model of `UnimodDB.get_by_id` (lines 179-207): `_get_mass_col` is evaluated
while formatting the query string, before the `mod_id=?` lookup. -/
def get_by_id (db : DB) (ptm_id : Int) (mass_type : String := "mono") :
    Except PyErr (String × ℚ) := do
  let col ← _get_mass_col mass_type
  match db.mods.find? (fun r => decide (r.mod_id = ptm_id)) with
  | some r => .ok (r.name, rowMass col r)
  | none => .error .notFound

/-- Model of `UnimodDB.get_name` (lines 233-265): `fetchone` on
`WHERE {col} BETWEEN ? AND ?` with bounds `mass - tol` and `mass + tol`;
SQL `BETWEEN` is inclusive at both ends.  `res[0]` is the `name` column. -/
def get_name (db : DB) (mass : ℚ) (mass_type : String := "mono") (tol : ℚ := 0.001) :
    Except PyErr String := do
  let col ← _get_mass_col mass_type
  match db.mods.find?
      (fun r => decide (mass - tol ≤ rowMass col r ∧ rowMass col r ≤ mass + tol)) with
  | some r => .ok r.name
  | none => .error .notFound

/-! ## Composition parsing

`UnimodDB.get_formula` (lines 209-231) parses the stored composition string
with `formula_regex = re.compile(r'(\w+)\(?([0-9-]+)?\)?')` (line 31) via
`findall`, then builds `{k: int(v) if v else 1 for k, v in ...}`.

A `findall` match of this pattern, at the leftmost position whose character
is a word character, consumes: the maximal run of word characters (`\w+`,
greedy; nothing later forces backtracking since the rest of the pattern is
optional), then one `'('` if present (`\(?`), then the maximal possibly
empty run over `[0-9-]` (`([0-9-]+)?`, captured as `''` when empty), then
one `')'` if present (`\)?`).  Characters at which no match can start are
skipped.  `\w` is modelled over its ASCII fragment (alphanumeric or
underscore), which covers every composition symbol in the feed. -/

/-- ASCII model of the regex class `\w`. -/
def isWordChar (c : Char) : Bool := c.isAlphanum || c = '_'

/-- The regex class `[0-9-]`. -/
def isCountChar (c : Char) : Bool := c.isDigit || c = '-'

/-- Regex step `\(?`: consume one opening parenthesis if present. -/
def dropOpenParen : List Char → List Char
  | [] => []
  | c :: t => if c = '(' then t else c :: t

/-- Regex step `\)?`: consume one closing parenthesis if present. -/
def dropCloseParen : List Char → List Char
  | [] => []
  | c :: t => if c = ')' then t else c :: t

/-- One `findall` match starting at the head of `l` (which must be a word
character): the captured groups and the remaining input. -/
def scanTok (l : List Char) : (String × String) × List Char :=
  let sym := l.takeWhile isWordChar
  let r1 := dropOpenParen (l.dropWhile isWordChar)
  let cnt := r1.takeWhile isCountChar
  let r2 := dropCloseParen (r1.dropWhile isCountChar)
  ((String.mk sym, String.mk cnt), r2)

/-- The `findall` scan with explicit fuel (each step consumes at least one
character, so fuel `l.length` is exact; see `scanFuel_eq_of_le`). -/
def scanFuel : Nat → List Char → List (String × String)
  | 0, _ => []
  | _ + 1, [] => []
  | fuel + 1, c :: rest =>
    if isWordChar c then (scanTok (c :: rest)).1 :: scanFuel fuel (scanTok (c :: rest)).2
    else scanFuel fuel rest

/-- Model of `UnimodDB.formula_regex.findall(s)` (line 230). -/
def findallFormula (s : String) : List (String × String) :=
  scanFuel s.data.length s.data

/-- The scan at its canonical fuel (`findallFormula` viewed on the
character list; see `findallFormula_eq_scan`). -/
def scan (l : List Char) : List (String × String) := scanFuel l.length l

/-- Characters that may legitimately follow a regex match without being
absorbed into it: nothing, or a character that can neither extend the
symbol or count runs nor be taken as one of the optional parentheses. -/
def sepOk : List Char → Prop
  | [] => True
  | c :: _ => isWordChar c = false ∧ c ≠ '(' ∧ isCountChar c = false ∧ c ≠ ')'

/-- Numeric value of a digit run. -/
def digitsVal (l : List Char) : Nat :=
  l.foldl (fun a c => 10 * a + (c.toNat - '0'.toNat)) 0

/-- Python `int(v)` on a string drawn from the alphabet `[0-9-]`: an
optional leading minus sign followed by at least one digit; anything else
(`'-'`, `'1-2'`, `'--1'`, ...) raises `ValueError`, modelled as `none`. -/
def pyIntOfString (s : String) : Option Int :=
  match s.data with
  | [] => none
  | '-' :: ds =>
    if ds ≠ [] ∧ ds.all Char.isDigit then some (-(digitsVal ds : Int)) else none
  | ds => if ds.all Char.isDigit then some ((digitsVal ds : Int)) else none

/-- Assignment `m[k] = v` on a Python `dict` modelled as an assoc list in
insertion order: re-assigning an existing key keeps its position. -/
def dictInsert (m : List (String × Int)) (k : String) (v : Int) : List (String × Int) :=
  match m with
  | [] => [(k, v)]
  | (k0, v0) :: rest =>
    if k0 = k then (k0, v) :: rest else (k0, v0) :: dictInsert rest k v

/-- The dict comprehension `{k: int(v) if v else 1 for k, v in findall}`
(lines 228-231), evaluated left to right; `int` on a malformed count
raises `ValueError`. -/
def buildFormulaAux (acc : List (String × Int)) :
    List (String × String) → Except PyErr (List (String × Int))
  | [] => .ok acc
  | (k, v) :: rest =>
    if v = "" then buildFormulaAux (dictInsert acc k 1) rest
    else
      match pyIntOfString v with
      | some n => buildFormulaAux (dictInsert acc k n) rest
      | none => .error .valueError

/-- The mapping built from the `findall` pairs. -/
def buildFormulaMap (l : List (String × String)) : Except PyErr (List (String × Int)) :=
  buildFormulaAux [] l

/-- Model of `UnimodDB.get_formula` (lines 209-231). -/
def get_formula (db : DB) (name : String) : Except PyErr (List (String × Int)) := do
  let row ← _get_row_by_name db name
  buildFormulaMap (findallFormula row.composition)

/-! ## Bulk extraction (`get_mods`, `get_ptms`) -/

/-- The joined rows of
`SELECT ... FROM mods INNER JOIN mod_sites ON mods.mod_id = mod_sites.mod_id`
(lines 287-288), in the nested-loop order the engine produces with the
`id_index` index: for each `mods` row in rowid order, its matching
`mod_sites` rows in rowid order. -/
def joinRows (db : DB) : List (ModRow × SiteRow) :=
  db.mods.flatMap
    (fun m => (db.mod_sites.filter (fun s => decide (m.mod_id = s.mod_id))).map (fun s => (m, s)))

/-- SQLite numeric affinity applied to a TEXT value for comparison against
a REAL column: the text must be a complete decimal literal (optional sign,
integer part, optional fractional part; exponent forms do not occur in the
feed and are not modelled), otherwise it keeps TEXT storage class and
compares unequal to every number. -/
def sqliteTextToRat (s : String) : Option ℚ :=
  let l := s.data
  let sl := match l with
    | '-' :: t => ((-1 : ℚ), t)
    | '+' :: t => ((1 : ℚ), t)
    | t => ((1 : ℚ), t)
  let ip := sl.2.takeWhile Char.isDigit
  let l2 := sl.2.dropWhile Char.isDigit
  if ip.isEmpty then none
  else
    let fl : ℚ × List Char := match l2 with
      | '.' :: t =>
        ((digitsVal (t.takeWhile Char.isDigit) : ℚ) / (10 : ℚ) ^ (t.takeWhile Char.isDigit).length,
          t.dropWhile Char.isDigit)
      | t => ((0 : ℚ), t)
    match fl.2 with
    | [] => some (sl.1 * ((digitsVal ip : ℚ) + fl.1))
    | _ => none

/-- SQLite identifier comparison (`sqlite3StrICmp`): ASCII
case-insensitive.  `Char.toLower` maps exactly `A`-`Z`, the same range
`sqlite3StrICmp` folds, so mapping both sides through `pyLower` is that
comparison. -/
def sqliteIdentEq (a b : String) : Bool := decide (pyLower a = pyLower b)

/-- The predicate SQLite evaluates for the interpolated clause
`WHERE classification = "<fc>"` (line 290), for a `filter_class` that
keeps the query well-formed.  SQLite reads a double-quoted token as a
column reference whenever it names a column in the scope of the join —
identifier resolution is ASCII case-insensitive (`sqlite3StrICmp`), so
`"SITE"` is the `site` column just as `"site"` is — and only otherwise as
a string literal; comparing the TEXT column `classification` against a
REAL column applies numeric affinity to its value. -/
def whereTest (fc : String) (m : ModRow) (srow : SiteRow) : Bool :=
  if sqliteIdentEq fc "name" then decide (srow.classification = m.name)
  else if sqliteIdentEq fc "full_name" then decide (srow.classification = m.full_name)
  else if sqliteIdentEq fc "composition" then decide (srow.classification = m.composition)
  else if sqliteIdentEq fc "site" then decide (srow.classification = srow.site)
  else if sqliteIdentEq fc "classification" then true
  else if sqliteIdentEq fc "mono_mass" then
    decide (sqliteTextToRat srow.classification = some m.mono_mass)
  else if sqliteIdentEq fc "avg_mass" then
    decide (sqliteTextToRat srow.classification = some m.avg_mass)
  else decide (srow.classification = fc)

/-- Filter strings under which the interpolated query does not run at all:
a double quote inside `fc` changes the SQL text itself (the injection the
spec's design notes warn about; modelled conservatively as a query error,
and no theorem below quantifies over such strings), and `"mod_id"` — in
any letter case, since identifier resolution is case-insensitive — names
a column of both joined tables, which SQLite rejects as ambiguous. -/
def badFilter (fc : String) : Bool := fc.data.contains '"' || sqliteIdentEq fc "mod_id"

/-- Append under Python's insertion-ordered `defaultdict(list)`
(lines 293-296). -/
def addSite (m : List ((String × ℚ) × List String)) (key : String × ℚ) (s : String) :
    List ((String × ℚ) × List String) :=
  match m with
  | [] => [(key, [s])]
  | (k0, v0) :: rest =>
    if k0 = key then (k0, v0 ++ [s]) :: rest else (k0, v0) :: addSite rest key s

/-- The grouping loop of `get_mods` (lines 293-296): one `addSite` per
fetched row, in fetch order. -/
def groupRows (col : String) (rows : List (ModRow × SiteRow)) :
    List ((String × ℚ) × List String) :=
  rows.foldl (fun acc rw => addSite acc (rw.1.name, rowMass col rw.1) rw.2.site) []

/-- Model of `UnimodDB.get_mods` (lines 267-297). -/
def get_mods (db : DB) (mass_type : String := "mono") (filter_class : Option String := none) :
    Except PyErr (List ((String × ℚ) × List String)) := do
  let col ← _get_mass_col mass_type
  match filter_class with
  | none => .ok (groupRows col (joinRows db))
  | some fc =>
    if badFilter fc then .error .operationalError
    else .ok (groupRows col ((joinRows db).filter (fun rw => whereTest fc rw.1 rw.2)))

/-- Model of `UnimodDB.get_ptms` (lines 299-316). -/
def get_ptms (db : DB) (mass_type : String := "mono") :
    Except PyErr (List ((String × ℚ) × List String)) :=
  get_mods db mass_type (some "Post-translational")

/-- Python `dict` lookup on the grouped result. -/
def lookupKey : List ((String × ℚ) × List String) → (String × ℚ) → Option (List String)
  | [], _ => none
  | kv :: rest, k => if kv.1 = k then some kv.2 else lookupKey rest k

/-! ## The reference composition grammar (spec §4.3)

The spec-side parser, written from the specification's words for
comparison with `get_formula`'s regex-based code: "the string is a
sequence of tokens, each an element symbol optionally followed by a
parenthesized signed integer count; a symbol with no parenthesized count
implies count 1.  Tokens are whitespace-separated. ... if the same symbol
appears more than once, later occurrences overwrite earlier ones
(last-token-wins) ... Empty or unparseable composition yields an empty
mapping."  An element symbol is a nonempty run of word characters; a
signed integer is an optional minus sign followed by digits. -/

/-- Split on whitespace, dropping empty fields (accumulator holds the
current token reversed). -/
def splitWsAux : List Char → List Char → List (List Char)
  | [], acc => if acc.isEmpty then [] else [acc.reverse]
  | c :: rest, acc =>
    if c.isWhitespace then
      if acc.isEmpty then splitWsAux rest [] else acc.reverse :: splitWsAux rest []
    else splitWsAux rest (c :: acc)

/-- One grammar token: an element symbol, optionally followed by a
parenthesized signed integer count; `none` when the token is not of that
shape. -/
def parseToken (tok : List Char) : Option (String × Int) :=
  let sym := tok.takeWhile isWordChar
  let rest := tok.dropWhile isWordChar
  if sym.isEmpty then none
  else
    match rest with
    | [] => some (String.mk sym, 1)
    | c :: t =>
      if c = '(' then
        if t.getLast? = some ')' then
          match pyIntOfString (String.mk t.dropLast) with
          | some n => some (String.mk sym, n)
          | none => none
        else none
      else none

/-- The reference grammar of spec §4.3 as a whole-string parser: mapping
built token by token with last-token-wins; an empty or unparseable string
yields the empty mapping. -/
def specGrammarParse (s : String) : List (String × Int) :=
  match (splitWsAux s.data []).mapM parseToken with
  | some pairs => pairs.foldl (fun m kv => dictInsert m kv.1 kv.2) []
  | none => []

/-- A token of the reference grammar in structured form, used to quantify
over grammar-conforming composition strings.  The count is kept as its
source text (e.g. `"-1"`). -/
structure FToken where
  sym : String
  cnt : Option String
deriving DecidableEq, Repr

/-- Well-formedness of a structured token: nonempty symbol of word
characters; a count, when present, drawn from `[0-9-]` and accepted by
`int`. -/
def FToken.wfb (t : FToken) : Bool :=
  (!t.sym.data.isEmpty) && t.sym.data.all isWordChar &&
    t.cnt.all (fun s => (pyIntOfString s).isSome && s.data.all isCountChar)

/-- The text of a structured token. -/
def FToken.chars (t : FToken) : List Char :=
  t.sym.data ++ (match t.cnt with | none => [] | some s => '(' :: (s.data ++ [')']))

/-- The count group text the regex captures for a structured token. -/
def FToken.cntString (t : FToken) : String :=
  match t.cnt with | none => "" | some s => s

/-- The integer count a structured token denotes (`1` when absent). -/
def FToken.val (t : FToken) : Int :=
  match t.cnt with | none => 1 | some s => (pyIntOfString s).getD 0

/-- A token sequence rendered as a whitespace-separated composition
string. -/
def renderComp : List FToken → List Char
  | [] => []
  | [t] => t.chars
  | t :: ts => t.chars ++ ' ' :: renderComp ts

/-! ## Concrete stores used by witnesses and counterexamples -/

/-- The `Nitro` feed record (Unimod record 354; masses and composition as
in the spec's §8 examples and the repository tests). -/
def nitroXml : XmlRecord :=
  { record_id := 354
    title := "Nitro"
    full_name := "Oxidation to nitro"
    mono_mass := 44.985078
    avge_mass := 44.9976
    composition := "H(-1) N O(2)"
    specificity := [("Y", "Chemical derivative"), ("W", "Chemical derivative")] }

/-- The `Nitrosyl` feed record (Unimod record 275; spec §8 examples). -/
def nitrosylXml : XmlRecord :=
  { record_id := 275
    title := "Nitrosyl"
    full_name := "S-nitrosylation"
    mono_mass := 28.990164
    avge_mass := 28.9982
    composition := "H(-1) N O"
    specificity := [("C", "Post-translational")] }

/-- The feed behind the concrete test store. -/
def feedT : List XmlRecord := [nitroXml, nitrosylXml]

/-- The concrete test store: the state a fresh construction leaves behind. -/
def dbT : DB := (construct feedT none).1

/-- The `mods` row loaded for `Nitro`. -/
def nitroRow : ModRow := loadRecordMods nitroXml

/-- The `mods` row loaded for `Nitrosyl`. -/
def nitrosylRow : ModRow := loadRecordMods nitrosylXml

/-- The empty store (schema created, no rows). -/
def dbEmpty : DB := { mods := [], mod_sites := [] }

/-- Token sequence of the `Nitro` composition `"H(-1) N O(2)"`. -/
def tsNitro : List FToken :=
  [{ sym := "H", cnt := some "-1" }, { sym := "N", cnt := none }, { sym := "O", cnt := some "2" }]

/-- A store whose single record carries the grammar-unparseable
composition string `"H(-)"`. -/
def dbBadComp : DB :=
  { mods := [{ mod_id := 1, name := "X", full_name := "x", mono_mass := 0,
               avg_mass := 0, composition := "H(-)" }],
    mod_sites := [] }

/-- A store exhibiting the interpolated-filter misreading: its single site
row's `classification` happens to equal its `site` text. -/
def dbInj : DB :=
  { mods := [{ mod_id := 1, name := "M", full_name := "m", mono_mass := 10,
               avg_mass := 20, composition := "H" }],
    mod_sites := [{ mod_id := 1, site := "K", classification := "K" }] }

/-! ## Helper lemmas -/

/-- A `find?` over a decomposed list returns the row at the decomposition
point when the prefix misses the predicate. -/
theorem find?_first {α : Type} (p : α → Bool) (l1 l2 : List α) (r : α)
    (h1 : ∀ x ∈ l1, p x = false) (h2 : p r = true) :
    (l1 ++ r :: l2).find? p = some r := by
  induction l1 with
  | nil => simp [List.find?_cons, h2]
  | cons a as ih =>
    have ha := h1 a (by simp)
    simpa [List.find?_cons, ha] using ih (fun x hx => h1 x (by simp [hx]))

/-! ## Claim C1: at-most-once load -/

/-- C1 (confirmed).  Constructing against a durable location whose store
already contains the `mods` table returns that store unchanged with the
Loader not run (`construct` second component `false`), whatever feed the
second instance was pointed at; hence every query of the second instance
agrees with the same query of the instance that populated the store. -/
theorem C1_at_most_once_load (feed feed2 : List XmlRecord) :
    construct feed2 (some (construct feed none).1) = ((construct feed none).1, false) ∧
    (∀ n mt, get_mass (construct feed2 (some (construct feed none).1)).1 n mt
      = get_mass (construct feed none).1 n mt) ∧
    (∀ i mt, get_by_id (construct feed2 (some (construct feed none).1)).1 i mt
      = get_by_id (construct feed none).1 i mt) ∧
    (∀ n, get_formula (construct feed2 (some (construct feed none).1)).1 n
      = get_formula (construct feed none).1 n) ∧
    (∀ m mt tol, get_name (construct feed2 (some (construct feed none).1)).1 m mt tol
      = get_name (construct feed none).1 m mt tol) ∧
    (∀ mt fc, get_mods (construct feed2 (some (construct feed none).1)).1 mt fc
      = get_mods (construct feed none).1 mt fc) ∧
    (∀ mt, get_ptms (construct feed2 (some (construct feed none).1)).1 mt
      = get_ptms (construct feed none).1 mt) :=
  ⟨rfl, fun _ _ => rfl, fun _ _ => rfl, fun _ => rfl, fun _ _ _ => rfl, fun _ _ => rfl,
    fun _ => rfl⟩

/-! ## Claim C2: name resolution -/

/-- C2 (confirmed).  Resolution takes the first stored record whose `name`
equals the argument; failing that, the first stored record whose
`full_name` equals the lower-cased argument; failing both, it raises
`NotFound`.  Full names are stored lower-cased at load time (last
conjunct), which is what makes the fallback case-insensitive. -/
theorem C2_name_resolution (db : DB) (n : String) :
    (∀ l1 r l2, db.mods = l1 ++ r :: l2 → (∀ x ∈ l1, x.name ≠ n) → r.name = n →
      _get_row_by_name db n = .ok r) ∧
    ((∀ x ∈ db.mods, x.name ≠ n) →
      ∀ l1 r l2, db.mods = l1 ++ r :: l2 → (∀ x ∈ l1, x.full_name ≠ pyLower n) →
      r.full_name = pyLower n → _get_row_by_name db n = .ok r) ∧
    ((∀ x ∈ db.mods, x.name ≠ n ∧ x.full_name ≠ pyLower n) →
      _get_row_by_name db n = .error .notFound) ∧
    (∀ x : XmlRecord, (loadRecordMods x).full_name = pyLower x.full_name) := by
  refine ⟨?_, ?_, ?_, fun _ => rfl⟩
  · intro l1 r l2 hdb h1 h2
    have hfind : db.mods.find? (fun x => decide (x.name = n)) = some r := by
      rw [hdb]
      exact find?_first _ _ _ _ (fun x hx => by simpa using h1 x hx) (by simpa using h2)
    unfold _get_row_by_name
    rw [hfind]
  · intro hnone l1 r l2 hdb h1 h2
    have hfind1 : db.mods.find? (fun x => decide (x.name = n)) = none := by
      rw [List.find?_eq_none]
      intro x hx
      simpa using hnone x hx
    have hfind2 : db.mods.find? (fun x => decide (x.full_name = pyLower n)) = some r := by
      rw [hdb]
      exact find?_first _ _ _ _ (fun x hx => by simpa using h1 x hx) (by simpa using h2)
    unfold _get_row_by_name
    rw [hfind1, hfind2]
  · intro hnone
    have hfind1 : db.mods.find? (fun x => decide (x.name = n)) = none := by
      rw [List.find?_eq_none]
      intro x hx
      simpa using (hnone x hx).1
    have hfind2 : db.mods.find? (fun x => decide (x.full_name = pyLower n)) = none := by
      rw [List.find?_eq_none]
      intro x hx
      simpa using (hnone x hx).2
    unfold _get_row_by_name
    rw [hfind1, hfind2]

/-- C2 witness: in the concrete store, `"S-Nitrosylation"` misses every
`name`, and resolves through the lower-cased `full_name` fallback to the
`Nitrosyl` record. -/
theorem C2_name_resolution_w :
    _get_row_by_name dbT "S-Nitrosylation" = .ok nitrosylRow :=
  (C2_name_resolution dbT "S-Nitrosylation").2.1 (by decide) [nitroRow] nitrosylRow []
    rfl (by decide) (by decide)

/-! ## Unfolding equations for the `do`-blocks -/

/-- Bind of `Except` on a success. -/
theorem bind_ok {A B : Type} (a : A) (f : A → Except PyErr B) :
    (Except.ok a >>= f) = f a := rfl

/-- Bind of `Except` on a failure. -/
theorem bind_error {A B : Type} (e : PyErr) (f : A → Except PyErr B) :
    ((Except.error e : Except PyErr A) >>= f) = .error e := rfl

/-- Unfolding of `get_mass` once the resolved row is known. -/
theorem get_mass_eq_of_ok (db : DB) (n mt : String) (r : ModRow)
    (hres : _get_row_by_name db n = .ok r) :
    get_mass db n mt = (_get_mass_col mt).map (fun col => rowMass col r) := by
  unfold get_mass
  rw [hres, bind_ok]
  rcases _get_mass_col mt with _ | c <;> rfl

/-- Unfolding of `get_mass` when resolution fails. -/
theorem get_mass_eq_of_error (db : DB) (n mt : String) (e : PyErr)
    (hres : _get_row_by_name db n = .error e) :
    get_mass db n mt = .error e := by
  unfold get_mass
  rw [hres, bind_error]

/-- Unfolding of `get_name` once the mass column is known. -/
theorem get_name_eq (db : DB) (mass : ℚ) (mt : String) (tol : ℚ) (col : String)
    (hcol : _get_mass_col mt = .ok col) :
    get_name db mass mt tol =
      match db.mods.find?
          (fun r => decide (mass - tol ≤ rowMass col r ∧ rowMass col r ≤ mass + tol)) with
      | some r => .ok r.name
      | none => .error .notFound := by
  unfold get_name
  rw [hcol, bind_ok]

/-- Unfolding of `get_by_id` once the mass column is known. -/
theorem get_by_id_eq (db : DB) (i : Int) (mt : String) (col : String)
    (hcol : _get_mass_col mt = .ok col) :
    get_by_id db i mt =
      match db.mods.find? (fun r => decide (r.mod_id = i)) with
      | some r => .ok (r.name, rowMass col r)
      | none => .error .notFound := by
  unfold get_by_id
  rw [hcol, bind_ok]

/-- The recognised mass types really name their columns. -/
theorem _get_mass_col_valid (mt : String) (hmt : mt = "mono" ∨ mt = "avg") :
    _get_mass_col mt = .ok (mt ++ "_mass") := by
  rcases hmt with h | h <;> simp [_get_mass_col, h]

/-! ## Claim C3: get_mass returns the selected stored mass -/

/-- C3 (confirmed).  For every stored record that is the first with its
name (the resolution tie-break the spec fixes), `get_mass` with `'mono'`
(or defaulted) returns its `mono_mass` and with `'avg'` its `avg_mass`. -/
theorem C3_get_mass_columns (db : DB) (l1 l2 : List ModRow) (r : ModRow)
    (hdb : db.mods = l1 ++ r :: l2) (hfirst : ∀ x ∈ l1, x.name ≠ r.name) :
    get_mass db r.name = .ok r.mono_mass ∧
    get_mass db r.name "mono" = .ok r.mono_mass ∧
    get_mass db r.name "avg" = .ok r.avg_mass := by
  have hres : _get_row_by_name db r.name = .ok r := by
    have hfind : db.mods.find? (fun x => decide (x.name = r.name)) = some r := by
      rw [hdb]
      exact find?_first _ _ _ _ (fun x hx => by simpa using hfirst x hx) (by simp)
    unfold _get_row_by_name
    rw [hfind]
  refine ⟨?_, ?_, ?_⟩ <;> rw [get_mass_eq_of_ok db r.name _ r hres] <;> rfl

/-- C3 witness: the claim's `Nitro` instance, with the spec's §8 masses. -/
theorem C3_get_mass_columns_w :
    get_mass dbT "Nitro" = .ok (44.985078 : ℚ) ∧
    get_mass dbT "Nitro" "avg" = .ok (44.9976 : ℚ) :=
  ⟨(C3_get_mass_columns dbT [] [nitrosylRow] nitroRow rfl (by decide)).1,
    (C3_get_mass_columns dbT [] [nitrosylRow] nitroRow rfl (by decide)).2.2⟩

/-! ## Claim C4: bad mass_type in get_mass -/

/-- C4 counterexample.  On the concrete store, `get_mass` called with an
unknown name and the bad mass type `'other'` raises `NotFound`, not
`InvalidArgument`: name resolution is evaluated before `_get_mass_col`,
so the claim's "even for a name absent from the store" direction fails. -/
theorem C4_bad_mass_type_ce :
    get_mass dbT "Missing" "other" = .error .notFound ∧
    (Except.error PyErr.notFound : Except PyErr ℚ) ≠ .error .valueError :=
  ⟨rfl, by decide⟩

/-- C4 (corrected).  A `mass_type` outside `{'mono','avg'}` makes
`get_mass` fail with `InvalidArgument` whenever the name resolves; when
the name does not resolve, the earlier name resolution fails first and
`NotFound` is raised instead. -/
theorem C4_bad_mass_type (db : DB) (n mt : String) (hmt : mt ≠ "mono" ∧ mt ≠ "avg") :
    (∀ r, _get_row_by_name db n = .ok r → get_mass db n mt = .error .valueError) ∧
    (_get_row_by_name db n = .error .notFound → get_mass db n mt = .error .notFound) := by
  have hcol : _get_mass_col mt = .error .valueError := by
    simp [_get_mass_col, hmt.1, hmt.2]
  constructor
  · intro r hr
    rw [get_mass_eq_of_ok db n mt r hr, hcol]
    rfl
  · intro hr
    exact get_mass_eq_of_error db n mt _ hr

/-- C4 witness: with a resolving name, the bad mass type does surface as
`InvalidArgument`. -/
theorem C4_bad_mass_type_w : get_mass dbT "Nitro" "other" = .error .valueError :=
  (C4_bad_mass_type dbT "Nitro" "other" (by decide)).1 nitroRow rfl

/-! ## Claim C6: get_name mass-window lookup -/

/-- C6 (confirmed).  For a recognised mass type, `get_name` returns the
name of the first stored row (storage order) whose selected mass lies in
the inclusive window `[mass - tol, mass + tol]`, and fails with `NotFound`
exactly when every stored row's selected mass lies outside that window. -/
theorem C6_get_name_window (db : DB) (mass tol : ℚ) (mt : String)
    (hmt : mt = "mono" ∨ mt = "avg") :
    (∀ l1 r l2, db.mods = l1 ++ r :: l2 →
      (∀ x ∈ l1, ¬(mass - tol ≤ rowMass (mt ++ "_mass") x ∧
        rowMass (mt ++ "_mass") x ≤ mass + tol)) →
      mass - tol ≤ rowMass (mt ++ "_mass") r → rowMass (mt ++ "_mass") r ≤ mass + tol →
      get_name db mass mt tol = .ok r.name) ∧
    (get_name db mass mt tol = .error .notFound ↔
      ∀ x ∈ db.mods, rowMass (mt ++ "_mass") x < mass - tol ∨
        mass + tol < rowMass (mt ++ "_mass") x) := by
  have hcol := _get_mass_col_valid mt hmt
  have hiff : ∀ x : ModRow,
      (¬(mass - tol ≤ rowMass (mt ++ "_mass") x ∧ rowMass (mt ++ "_mass") x ≤ mass + tol)) ↔
      (rowMass (mt ++ "_mass") x < mass - tol ∨ mass + tol < rowMass (mt ++ "_mass") x) := by
    intro x
    rw [not_and_or, not_le, not_le]
  constructor
  · intro l1 r l2 hdb h1 h2 h3
    have hfind : db.mods.find?
        (fun x => decide (mass - tol ≤ rowMass (mt ++ "_mass") x ∧
          rowMass (mt ++ "_mass") x ≤ mass + tol)) = some r := by
      rw [hdb]
      refine find?_first _ _ _ _ (fun x hx => ?_) (decide_eq_true ⟨h2, h3⟩)
      exact decide_eq_false (h1 x hx)
    rw [get_name_eq db mass mt tol _ hcol, hfind]
  · rw [get_name_eq db mass mt tol _ hcol]
    constructor
    · intro hnone x hx
      rcases hfind : db.mods.find?
          (fun x => decide (mass - tol ≤ rowMass (mt ++ "_mass") x ∧
            rowMass (mt ++ "_mass") x ≤ mass + tol)) with _ | r
      · have hmiss := List.find?_eq_none.mp hfind x hx
        exact (hiff x).1 (fun hw => hmiss (decide_eq_true hw))
      · rw [hfind] at hnone
        simp at hnone
    · intro hall
      rcases hfind : db.mods.find?
          (fun x => decide (mass - tol ≤ rowMass (mt ++ "_mass") x ∧
            rowMass (mt ++ "_mass") x ≤ mass + tol)) with _ | r
      · rfl
      · exfalso
        have hmem := List.mem_of_find?_eq_some hfind
        have hsat := List.find?_some hfind
        simp only [decide_eq_true_eq] at hsat
        exact absurd hsat ((hiff r).2 (hall r hmem))

unseal Rat.ofScientific Rat.add Rat.sub Rat.mul Rat.inv in
/-- C6 witness: the spec's §8 instance, `get_name(44.9850)` with the
default tolerance returning `"Nitro"`. -/
theorem C6_get_name_window_w : get_name dbT 44.9850 "mono" 0.001 = .ok "Nitro" :=
  (C6_get_name_window dbT 44.9850 0.001 "mono" (Or.inl rfl)).1 [] nitroRow [nitrosylRow]
    rfl (by decide) (by decide) (by decide)

/-! ## Claim C8: get_by_id -/

/-- C8 (confirmed).  For a recognised mass type, `get_by_id` returns the
`(name, selected mass)` of the first stored record carrying the
identifier, and fails with `NotFound` exactly when no stored record does;
for a bad mass type it fails with `InvalidArgument` (the column is
resolved while formatting the query, before the lookup). -/
theorem C8_get_by_id (db : DB) (i : Int) (mt : String) :
    ((mt = "mono" ∨ mt = "avg") →
      ∀ l1 r l2, db.mods = l1 ++ r :: l2 → (∀ x ∈ l1, x.mod_id ≠ i) → r.mod_id = i →
      get_by_id db i mt = .ok (r.name, rowMass (mt ++ "_mass") r)) ∧
    ((mt = "mono" ∨ mt = "avg") →
      (get_by_id db i mt = .error .notFound ↔ ∀ x ∈ db.mods, x.mod_id ≠ i)) ∧
    (¬(mt = "mono" ∨ mt = "avg") → get_by_id db i mt = .error .valueError) := by
  refine ⟨?_, ?_, ?_⟩
  · intro hmt l1 r l2 hdb h1 h2
    have hfind : db.mods.find? (fun x => decide (x.mod_id = i)) = some r := by
      rw [hdb]
      exact find?_first _ _ _ _ (fun x hx => decide_eq_false (h1 x hx)) (decide_eq_true h2)
    rw [get_by_id_eq db i mt _ (_get_mass_col_valid mt hmt), hfind]
  · intro hmt
    rw [get_by_id_eq db i mt _ (_get_mass_col_valid mt hmt)]
    constructor
    · intro hnone x hx
      rcases hfind : db.mods.find? (fun x => decide (x.mod_id = i)) with _ | r
      · have hmiss := List.find?_eq_none.mp hfind x hx
        intro he
        exact hmiss (decide_eq_true he)
      · rw [hfind] at hnone
        simp at hnone
    · intro hall
      rcases hfind : db.mods.find? (fun x => decide (x.mod_id = i)) with _ | r
      · rw [hfind]
      · exfalso
        have hmem := List.mem_of_find?_eq_some hfind
        have hsat := List.find?_some hfind
        simp only [decide_eq_true_eq] at hsat
        exact hall r hmem hsat
  · intro hmt
    have hcol : _get_mass_col mt = .error .valueError := by
      simp only [_get_mass_col, if_neg hmt]
    unfold get_by_id
    rw [hcol, bind_error]

/-- C8 witness: the spec's §8 instance, `get_by_id(354)` in both mass
types, plus a missing identifier and a bad mass type. -/
theorem C8_get_by_id_w :
    get_by_id dbT 354 "mono" = .ok ("Nitro", (44.985078 : ℚ)) ∧
    get_by_id dbT 354 "avg" = .ok ("Nitro", (44.9976 : ℚ)) ∧
    get_by_id dbT 1 "mono" = .error .notFound ∧
    get_by_id dbT 354 "other" = .error .valueError :=
  ⟨(C8_get_by_id dbT 354 "mono").1 (Or.inl rfl) [] nitroRow [nitrosylRow] rfl
      (by decide) (by decide),
    (C8_get_by_id dbT 354 "avg").1 (Or.inr rfl) [] nitroRow [nitrosylRow] rfl
      (by decide) (by decide),
    ((C8_get_by_id dbT 1 "mono").2.1 (Or.inl rfl)).2 (by decide),
    (C8_get_by_id dbT 354 "other").2.2 (by decide)⟩

/-! ## Claim C9: get_ptms refines get_mods -/

/-- C9 (confirmed).  `get_ptms` is literally the delegation
`get_mods(mass_type, filter_class='Post-translational')`, for every mass
type (valid or not) and every store state, returning the identical
mapping. -/
theorem C9_get_ptms_delegates (db : DB) (mt : String) :
    get_ptms db mt = get_mods db mt (some "Post-translational") := rfl

/-! ## Claim C10: get_name/get_mods/get_ptms validate mass_type -/

/-- C10 (confirmed).  The three operations the spec does not list
`InvalidArgument` for also validate `mass_type` through `_get_mass_col`
before touching the store: with a bad mass type each fails with
`InvalidArgument` on every store whatsoever (so no `NotFound` or
empty-result outcome can be observed first). -/
theorem C10_mass_type_validated (db : DB) (mass tol : ℚ) (mt : String) (fc : Option String)
    (hmt : mt ≠ "mono" ∧ mt ≠ "avg") :
    get_name db mass mt tol = .error .valueError ∧
    get_mods db mt fc = .error .valueError ∧
    get_ptms db mt = .error .valueError := by
  have hmt' : ¬(mt = "mono" ∨ mt = "avg") := by
    rintro (h | h)
    exacts [hmt.1 h, hmt.2 h]
  have hcol : _get_mass_col mt = .error .valueError := by
    simp only [_get_mass_col, if_neg hmt']
  refine ⟨?_, ?_, ?_⟩
  · unfold get_name
    rw [hcol, bind_error]
  · unfold get_mods
    rw [hcol, bind_error]
  · unfold get_ptms get_mods
    rw [hcol, bind_error]

/-- C10 witness: the bad mass type `'other'` against the empty store, for
each of the three operations. -/
theorem C10_mass_type_validated_w :
    get_name dbEmpty 0 "other" 0.001 = .error .valueError ∧
    get_mods dbEmpty "other" none = .error .valueError ∧
    get_ptms dbEmpty "other" = .error .valueError :=
  C10_mass_type_validated dbEmpty 0 0.001 "other" none (by decide)

/-! ## Claim C7: get_mods classification filter -/

/-- Effect of one `addSite` on a key lookup. -/
theorem lookupKey_addSite (m : List ((String × ℚ) × List String)) (key : String × ℚ)
    (s : String) (k : String × ℚ) :
    lookupKey (addSite m key s) k =
      if k = key then some ((lookupKey m k).getD [] ++ [s]) else lookupKey m k := by
  induction m with
  | nil =>
    simp only [addSite, lookupKey]
    by_cases hk : key = k
    · rw [if_pos hk, if_pos hk.symm]
      rfl
    · rw [if_neg hk, if_neg (fun h => hk h.symm)]
  | cons p rest ih =>
    obtain ⟨k0, v0⟩ := p
    by_cases h0 : k0 = key
    · simp only [addSite, if_pos h0, lookupKey]
      by_cases hpk : k0 = k
      · rw [if_pos hpk, if_pos hpk, if_pos (hpk.symm.trans h0)]
        rfl
      · rw [if_neg hpk, if_neg hpk, if_neg (fun h : k = key => hpk (h0.trans h.symm))]
    · simp only [addSite, if_neg h0, lookupKey]
      by_cases hpk : k0 = k
      · rw [if_pos hpk, if_pos hpk, if_neg (fun h : k = key => h0 (hpk.trans h))]
      · rw [if_neg hpk, if_neg hpk, ih]

/-- Lookup through the grouping fold: the sites grouped under `k` are the
sites of the matching rows, appended in encounter order to whatever the
accumulator already held. -/
theorem lookupKey_groupFold (col : String) (rows : List (ModRow × SiteRow)) :
    ∀ (acc : List ((String × ℚ) × List String)) (k : String × ℚ),
      lookupKey (rows.foldl
        (fun a rw => addSite a (rw.1.name, rowMass col rw.1) rw.2.site) acc) k =
      (if (rows.filter
            (fun rw => decide ((rw.1.name, rowMass col rw.1) = k))).map (fun rw => rw.2.site) = []
       then lookupKey acc k
       else some ((lookupKey acc k).getD [] ++ (rows.filter
            (fun rw => decide ((rw.1.name, rowMass col rw.1) = k))).map (fun rw => rw.2.site))) := by
  induction rows with
  | nil =>
    intro acc k
    simp
  | cons rw rest ih =>
    intro acc k
    rw [List.foldl_cons, ih]
    by_cases hk : (rw.1.name, rowMass col rw.1) = k
    · have hfc : List.filter (fun x => decide ((x.1.name, rowMass col x.1) = k)) (rw :: rest)
          = rw :: List.filter (fun x => decide ((x.1.name, rowMass col x.1) = k)) rest := by
        simp [List.filter_cons, hk]
      have hla : lookupKey (addSite acc (rw.1.name, rowMass col rw.1) rw.2.site) k
          = some ((lookupKey acc k).getD [] ++ [rw.2.site]) := by
        rw [lookupKey_addSite, if_pos hk.symm]
      by_cases hrest : (List.filter (fun x => decide ((x.1.name, rowMass col x.1) = k))
          rest).map (fun x => x.2.site) = []
      · simp [hfc, hla, hrest]
      · simp [hfc, hla, hrest, List.append_assoc]
    · have hfc : List.filter (fun x => decide ((x.1.name, rowMass col x.1) = k)) (rw :: rest)
          = List.filter (fun x => decide ((x.1.name, rowMass col x.1) = k)) rest := by
        simp [List.filter_cons, hk]
      have hla : lookupKey (addSite acc (rw.1.name, rowMass col rw.1) rw.2.site) k
          = lookupKey acc k := by
        rw [lookupKey_addSite, if_neg (fun h => hk h.symm)]
      rw [hfc, hla]

/-- C7 counterexample.  `filter_class` is interpolated into the SQL inside
double quotes, and SQLite reads a double-quoted token that names a column
of the joined tables as that column, not as a string literal.  With
`filter_class = "site"` the clause becomes `classification = site`
(column-to-column): a store whose only site row has `classification "K"`
(never equal to the string `"site"`) still yields that row, because its
classification equals its site.  Under the claim's exact-string-equality
reading the result would have been empty. -/
theorem C7_filter_class_ce :
    dbInj.mod_sites = [{ mod_id := 1, site := "K", classification := "K" }] ∧
    ("K" : String) ≠ "site" ∧
    get_mods dbInj "mono" (some "site") = .ok [(("M", 10), ["K"])] := by
  refine ⟨rfl, by decide, ?_⟩
  rfl

/-- C7 (corrected).  For every `filter_class` that contains no double
quote and matches none of the joined columns' names under SQLite's
case-insensitive identifier resolution — in particular every
classification label the feed uses — `get_mods` keeps exactly the join
rows whose `classification` equals it by exact case-sensitive string
equality, groups the matching sites under each distinct `(name, mass)` key
in encounter order (third conjunct), and returns the empty mapping, not an
error, when no row matches (second conjunct). -/
theorem C7_filter_class (db : DB) (mt fc : String)
    (hmt : mt = "mono" ∨ mt = "avg")
    (hq : fc.data.contains '"' = false)
    (hcols : ∀ col ∈ (["name", "full_name", "composition", "site", "classification",
      "mono_mass", "avg_mass", "mod_id"] : List String), sqliteIdentEq fc col = false) :
    get_mods db mt (some fc) =
      .ok (groupRows (mt ++ "_mass")
        ((joinRows db).filter (fun rw => decide (rw.2.classification = fc)))) ∧
    ((∀ rw ∈ joinRows db, rw.2.classification ≠ fc) → get_mods db mt (some fc) = .ok []) ∧
    (∀ k, lookupKey (groupRows (mt ++ "_mass")
        ((joinRows db).filter (fun rw => decide (rw.2.classification = fc)))) k =
      (if (((joinRows db).filter (fun rw => decide (rw.2.classification = fc))).filter
            (fun rw => decide ((rw.1.name, rowMass (mt ++ "_mass") rw.1) = k))).map
            (fun rw => rw.2.site) = []
       then none
       else some ((((joinRows db).filter (fun rw => decide (rw.2.classification = fc))).filter
            (fun rw => decide ((rw.1.name, rowMass (mt ++ "_mass") rw.1) = k))).map
            (fun rw => rw.2.site)))) := by
  have h1 := hcols "name" (by simp)
  have h2 := hcols "full_name" (by simp)
  have h3 := hcols "composition" (by simp)
  have h4 := hcols "site" (by simp)
  have h5 := hcols "classification" (by simp)
  have h6 := hcols "mono_mass" (by simp)
  have h7 := hcols "avg_mass" (by simp)
  have h8 := hcols "mod_id" (by simp)
  have hq2 : ('"' : Char) ∉ fc.data := by
    simpa using hq
  have hbad : badFilter fc = false := by
    simp [badFilter, hq2, h8]
  have hwt : ∀ rw : ModRow × SiteRow,
      whereTest fc rw.1 rw.2 = decide (rw.2.classification = fc) := by
    intro rw
    simp only [whereTest, h1, h2, h3, h4, h5, h6, h7, Bool.false_eq_true, if_false]
  have hmain : get_mods db mt (some fc) =
      .ok (groupRows (mt ++ "_mass")
        ((joinRows db).filter (fun rw => decide (rw.2.classification = fc)))) := by
    unfold get_mods
    rw [_get_mass_col_valid mt hmt, bind_ok]
    simp only [hbad, Bool.false_eq_true, if_false, hwt]
  refine ⟨hmain, ?_, ?_⟩
  · intro hall
    have hfil : (joinRows db).filter (fun rw => decide (rw.2.classification = fc)) = [] := by
      rw [List.filter_eq_nil_iff]
      intro rw hrw
      simpa using hall rw hrw
    rw [hmain, hfil]
    rfl
  · intro k
    have := lookupKey_groupFold (mt ++ "_mass")
      ((joinRows db).filter (fun rw => decide (rw.2.classification = fc))) [] k
    rw [groupRows, this]
    by_cases hsl : (((joinRows db).filter (fun rw => decide (rw.2.classification = fc))).filter
        (fun rw => decide ((rw.1.name, rowMass (mt ++ "_mass") rw.1) = k))).map
        (fun rw => rw.2.site) = []
    · rw [if_pos hsl, if_pos hsl]
      rfl
    · rw [if_neg hsl, if_neg hsl]
      rfl

unseal Rat.ofScientific Rat.add Rat.sub Rat.mul Rat.inv in
/-- C7 witness: the safe filter string `"Post-translational"` on the
concrete store keeps exactly the `Nitrosyl` cysteine site, the spec's §8
`get_ptms` entry. -/
theorem C7_filter_class_w :
    get_mods dbT "mono" (some "Post-translational") =
      .ok [(("Nitrosyl", (28.990164 : ℚ)), ["C"])] := by
  rw [(C7_filter_class dbT "mono" "Post-translational" (Or.inl rfl) rfl (by decide)).1]
  rfl

/-! ## Claim C5: composition parsing vs the reference grammar -/

/-- A word character is not whitespace. -/
theorem isWordChar_not_ws (c : Char) (h : isWordChar c = true) : c.isWhitespace = false := by
  by_contra hw
  rw [Bool.not_eq_false] at hw
  simp only [Char.isWhitespace, Bool.or_eq_true, decide_eq_true_eq] at hw
  rcases hw with ((h1 | h1) | h1) | h1 <;> subst h1 <;> exact absurd h (by decide)

/-- A count character is not whitespace. -/
theorem isCountChar_not_ws (c : Char) (h : isCountChar c = true) : c.isWhitespace = false := by
  by_contra hw
  rw [Bool.not_eq_false] at hw
  simp only [Char.isWhitespace, Bool.or_eq_true, decide_eq_true_eq] at hw
  rcases hw with ((h1 | h1) | h1) | h1 <;> subst h1 <;> exact absurd h (by decide)

/-- Dropping a prefix never lengthens a list. -/
theorem length_dropWhile_le (p : Char → Bool) (l : List Char) :
    (l.dropWhile p).length ≤ l.length := by
  induction l with
  | nil => exact Nat.le_refl 0
  | cons c t ih =>
    rw [List.dropWhile_cons]
    by_cases hc : p c = true
    · rw [if_pos hc]
      exact Nat.le_succ_of_le ih
    · rw [if_neg hc]

theorem length_dropOpenParen_le (l : List Char) : (dropOpenParen l).length ≤ l.length := by
  cases l with
  | nil => exact Nat.le_refl 0
  | cons c t =>
    show (if c = '(' then t else c :: t).length ≤ (c :: t).length
    by_cases hc : c = '('
    · rw [if_pos hc]
      exact Nat.le_succ _
    · rw [if_neg hc]

theorem length_dropCloseParen_le (l : List Char) : (dropCloseParen l).length ≤ l.length := by
  cases l with
  | nil => exact Nat.le_refl 0
  | cons c t =>
    show (if c = ')' then t else c :: t).length ≤ (c :: t).length
    by_cases hc : c = ')'
    · rw [if_pos hc]
      exact Nat.le_succ _
    · rw [if_neg hc]

/-- A scan step started at a word character consumes at least that
character. -/
theorem scanTok_snd_le (c : Char) (rest : List Char) (hc : isWordChar c = true) :
    ((scanTok (c :: rest)).2).length ≤ rest.length := by
  show (dropCloseParen ((dropOpenParen ((c :: rest).dropWhile isWordChar)).dropWhile
    isCountChar)).length ≤ rest.length
  have h1 : (c :: rest).dropWhile isWordChar = rest.dropWhile isWordChar := by
    rw [List.dropWhile_cons, if_pos hc]
  calc (dropCloseParen ((dropOpenParen ((c :: rest).dropWhile isWordChar)).dropWhile
          isCountChar)).length
      ≤ ((dropOpenParen ((c :: rest).dropWhile isWordChar)).dropWhile isCountChar).length :=
        length_dropCloseParen_le _
    _ ≤ (dropOpenParen ((c :: rest).dropWhile isWordChar)).length := length_dropWhile_le _ _
    _ ≤ ((c :: rest).dropWhile isWordChar).length := length_dropOpenParen_le _
    _ = (rest.dropWhile isWordChar).length := by rw [h1]
    _ ≤ rest.length := length_dropWhile_le _ _

/-- The scan is fuel-insensitive once the fuel covers the input length. -/
theorem scanFuel_congr : ∀ (f1 f2 : Nat) (l : List Char),
    l.length ≤ f1 → l.length ≤ f2 → scanFuel f1 l = scanFuel f2 l := by
  intro f1
  induction f1 with
  | zero =>
    intro f2 l h1 h2
    have hl : l = [] := List.eq_nil_of_length_eq_zero (Nat.le_zero.mp h1)
    subst hl
    cases f2 <;> rfl
  | succ f ih =>
    intro f2 l h1 h2
    cases l with
    | nil => cases f2 <;> rfl
    | cons c rest =>
      cases f2 with
      | zero => exact absurd h2 (by simp)
      | succ f2' =>
        show scanFuel (f + 1) (c :: rest) = scanFuel (f2' + 1) (c :: rest)
        simp only [scanFuel]
        have hr1 : rest.length ≤ f := Nat.le_of_succ_le_succ h1
        have hr2 : rest.length ≤ f2' := Nat.le_of_succ_le_succ h2
        by_cases hc : isWordChar c = true
        · rw [if_pos hc, if_pos hc]
          have hlen := scanTok_snd_le c rest hc
          rw [ih f2' (scanTok (c :: rest)).2 (Nat.le_trans hlen hr1) (Nat.le_trans hlen hr2)]
        · rw [if_neg hc, if_neg hc]
          exact ih f2' rest hr1 hr2

theorem findallFormula_eq_scan (s : String) : findallFormula s = scan s.data := rfl

theorem scan_cons_not_word (c : Char) (rest : List Char) (hc : isWordChar c = false) :
    scan (c :: rest) = scan rest := by
  show scanFuel (rest.length + 1) (c :: rest) = scanFuel rest.length rest
  simp only [scanFuel, hc, Bool.false_eq_true, if_false]

theorem scan_cons_word (c : Char) (rest : List Char) (hc : isWordChar c = true) :
    scan (c :: rest) = (scanTok (c :: rest)).1 :: scan (scanTok (c :: rest)).2 := by
  show scanFuel (rest.length + 1) (c :: rest) = _
  simp only [scanFuel, hc, if_true]
  have hlen := scanTok_snd_le c rest hc
  rw [scanFuel_congr rest.length ((scanTok (c :: rest)).2).length _ hlen (Nat.le_refl _)]
  rfl

/-- Splitting an append with `takeWhile`/`dropWhile` at a satisfied prefix
followed by a failing head. -/
theorem takeWhile_append_all (p : Char → Bool) (l r : List Char)
    (hl : ∀ c ∈ l, p c = true) (hr : ∀ c cs, r = c :: cs → p c = false) :
    (l ++ r).takeWhile p = l ∧ (l ++ r).dropWhile p = r := by
  induction l with
  | nil =>
    cases r with
    | nil => exact ⟨rfl, rfl⟩
    | cons c cs =>
      rw [List.nil_append]
      constructor
      · rw [List.takeWhile_cons, if_neg (by rw [hr c cs rfl]; exact Bool.false_ne_true)]
      · rw [List.dropWhile_cons, if_neg (by rw [hr c cs rfl]; exact Bool.false_ne_true)]
  | cons a as ih =>
    have ha : p a = true := hl a (List.mem_cons_self a as)
    have hrest := ih (fun c hc => hl c (List.mem_cons_of_mem a hc))
    constructor
    · rw [List.cons_append, List.takeWhile_cons, if_pos ha, hrest.1]
    · rw [List.cons_append, List.dropWhile_cons, if_pos ha, hrest.2]

/-- Unpacked well-formedness of a structured token. -/
theorem wfb_unpack (t : FToken) (h : t.wfb = true) :
    t.sym.data ≠ [] ∧ (∀ c ∈ t.sym.data, isWordChar c = true) ∧
      ∀ s, t.cnt = some s → (pyIntOfString s).isSome = true ∧
        ∀ c ∈ s.data, isCountChar c = true := by
  have h' := h
  unfold FToken.wfb at h'
  rw [Bool.and_eq_true, Bool.and_eq_true] at h'
  obtain ⟨⟨h1, h2⟩, h3⟩ := h'
  refine ⟨?_, ?_, ?_⟩
  · intro he
    rw [he] at h1
    exact absurd h1 (by decide)
  · intro c hc
    exact List.all_eq_true.mp h2 c hc
  · intro s hs
    rw [hs] at h3
    have h3' : ((pyIntOfString s).isSome && s.data.all isCountChar) = true := h3
    rw [Bool.and_eq_true] at h3'
    exact ⟨h3'.1, fun c hc => List.all_eq_true.mp h3'.2 c hc⟩

/-- A `findall` match consumes exactly one well-formed token when followed
by a separator-safe remainder, capturing its symbol and count text. -/
theorem scanTok_chars (t : FToken) (r : List Char) (hwf : t.wfb = true) (hr : sepOk r) :
    scanTok (t.chars ++ r) = ((t.sym, t.cntString), r) := by
  obtain ⟨hne, hword, hcnt⟩ := wfb_unpack t hwf
  have hrword : ∀ c cs, r = c :: cs → isWordChar c = false := by
    intro c cs hrc
    rw [hrc] at hr
    exact hr.1
  have hrparen : dropOpenParen r = r := by
    cases hrc : r with
    | nil => rfl
    | cons c cs =>
      rw [hrc] at hr
      show (if c = '(' then cs else c :: cs) = c :: cs
      rw [if_neg hr.2.1]
  have hrcount : r.takeWhile isCountChar = [] ∧ r.dropWhile isCountChar = r := by
    cases hrc : r with
    | nil => exact ⟨rfl, rfl⟩
    | cons c cs =>
      rw [hrc] at hr
      constructor
      · rw [List.takeWhile_cons, if_neg (by rw [hr.2.2.1]; exact Bool.false_ne_true)]
      · rw [List.dropWhile_cons, if_neg (by rw [hr.2.2.1]; exact Bool.false_ne_true)]
  have hrclose : dropCloseParen r = r := by
    cases hrc : r with
    | nil => rfl
    | cons c cs =>
      rw [hrc] at hr
      show (if c = ')' then cs else c :: cs) = c :: cs
      rw [if_neg hr.2.2.2]
  cases hc : t.cnt with
  | none =>
    have hchars : t.chars = t.sym.data := by
      simp [FToken.chars, hc]
    have hcs : t.cntString = "" := by
      simp [FToken.cntString, hc]
    have hsplit := takeWhile_append_all isWordChar t.sym.data r hword hrword
    rw [hchars, hcs]
    simp only [scanTok]
    rw [hsplit.1, hsplit.2, hrparen, hrcount.1, hrcount.2, hrclose]
  | some s =>
    have hchars : t.chars ++ r = t.sym.data ++ ('(' :: (s.data ++ ')' :: r)) := by
      simp [FToken.chars, hc, List.append_assoc]
    have hcs : t.cntString = s := by
      simp [FToken.cntString, hc]
    obtain ⟨hin, hinc⟩ := hcnt s hc
    have hsplit := takeWhile_append_all isWordChar t.sym.data ('(' :: (s.data ++ ')' :: r))
      hword (by intro c cs hcc; cases hcc; decide)
    have hsplit2 := takeWhile_append_all isCountChar s.data (')' :: r) hinc
      (by intro c cs hcc; cases hcc; decide)
    rw [hchars, hcs]
    simp only [scanTok]
    rw [hsplit.1, hsplit.2]
    have hdo : dropOpenParen ('(' :: (s.data ++ ')' :: r)) = s.data ++ ')' :: r := by
      show (if '(' = '(' then s.data ++ ')' :: r
        else '(' :: (s.data ++ ')' :: r)) = s.data ++ ')' :: r
      rw [if_pos rfl]
    rw [hdo, hsplit2.1, hsplit2.2]
    have hdc : dropCloseParen (')' :: r) = r := by
      show (if ')' = ')' then r else ')' :: r) = r
      rw [if_pos rfl]
    rw [hdc]

/-- The scan emits one pair per well-formed token, then scans on. -/
theorem scan_chars_append (t : FToken) (r : List Char) (hwf : t.wfb = true) (hr : sepOk r) :
    scan (t.chars ++ r) = (t.sym, t.cntString) :: scan r := by
  obtain ⟨hne, hword, _⟩ := wfb_unpack t hwf
  have hst := scanTok_chars t r hwf hr
  rcases hd : t.sym.data with _ | ⟨c0, cs⟩
  · exact absurd hd hne
  · have htl : ∃ tl, t.chars = c0 :: tl := by
      refine ⟨cs ++ (match t.cnt with | none => [] | some s => '(' :: (s.data ++ [')'])), ?_⟩
      simp [FToken.chars, hd]
    obtain ⟨tl, htl⟩ := htl
    have hc0 : isWordChar c0 = true := hword c0 (by rw [hd]; exact List.mem_cons_self c0 cs)
    rw [htl, List.cons_append, scan_cons_word c0 (tl ++ r) hc0, ← List.cons_append, ← htl,
      hst]

/-- The scan of a rendered token sequence is exactly the captured pairs. -/
theorem scan_renderComp (ts : List FToken) (h : ts.all FToken.wfb = true) :
    scan (renderComp ts) = ts.map (fun t => (t.sym, t.cntString)) := by
  induction ts with
  | nil => rfl
  | cons t rest ih =>
    have h1 : t.wfb = true ∧ rest.all FToken.wfb = true := by
      rw [List.all_cons, Bool.and_eq_true] at h
      exact h
    cases rest with
    | nil =>
      show scan t.chars = [(t.sym, t.cntString)]
      have := scan_chars_append t [] h1.1 trivial
      rw [List.append_nil] at this
      rw [this]
      rfl
    | cons t2 rest2 =>
      show scan (t.chars ++ ' ' :: renderComp (t2 :: rest2)) = _
      rw [scan_chars_append t (' ' :: renderComp (t2 :: rest2)) h1.1
        ⟨by decide, by decide, by decide, by decide⟩]
      rw [scan_cons_not_word ' ' (renderComp (t2 :: rest2)) (by decide), ih h1.2]
      rfl

/-- Building the mapping from well-formed captured pairs never raises and
is the token-by-token `dictInsert` fold. -/
theorem buildFormulaAux_tokens (ts : List FToken) :
    ∀ acc, ts.all FToken.wfb = true →
      buildFormulaAux acc (ts.map (fun t => (t.sym, t.cntString))) =
        .ok (ts.foldl (fun m t => dictInsert m t.sym t.val) acc) := by
  induction ts with
  | nil => intro acc _; rfl
  | cons t rest ih =>
    intro acc h
    have h1 : t.wfb = true ∧ rest.all FToken.wfb = true := by
      rw [List.all_cons, Bool.and_eq_true] at h
      exact h
    rw [List.map_cons, List.foldl_cons]
    cases hc : t.cnt with
    | none =>
      have hcs : t.cntString = "" := by simp [FToken.cntString, hc]
      have hval : t.val = 1 := by simp [FToken.val, hc]
      show buildFormulaAux acc ((t.sym, t.cntString) :: _) = _
      rw [hcs, hval]
      show buildFormulaAux (dictInsert acc t.sym 1) _ = _
      exact ih (dictInsert acc t.sym 1) h1.2
    | some s =>
      have hcs : t.cntString = s := by simp [FToken.cntString, hc]
      obtain ⟨hin, _⟩ := (wfb_unpack t h1.1).2.2 s hc
      obtain ⟨n, hn⟩ := Option.isSome_iff_exists.mp hin
      have hval : t.val = n := by simp [FToken.val, hc, hn]
      have hs_ne : s ≠ "" := by
        intro hse
        rw [hse] at hn
        rw [show pyIntOfString "" = none from rfl] at hn
        cases hn
      show buildFormulaAux acc ((t.sym, t.cntString) :: _) = _
      rw [hcs, hval]
      show (if s = "" then buildFormulaAux (dictInsert acc t.sym 1) _
        else match pyIntOfString s with
          | some n => buildFormulaAux (dictInsert acc t.sym n) _
          | none => .error .valueError) = _
      rw [if_neg hs_ne, hn]
      exact ih (dictInsert acc t.sym n) h1.2

/-- Splitting skips over a whitespace-free chunk, accumulating it. -/
theorem splitWsAux_chunk (tok : List Char) : ∀ (r acc : List Char),
    (∀ c ∈ tok, c.isWhitespace = false) →
    splitWsAux (tok ++ r) acc = splitWsAux r (tok.reverse ++ acc) := by
  induction tok with
  | nil => intro r acc _; rfl
  | cons c ts ih =>
    intro r acc h
    have hc : c.isWhitespace = false := h c (List.mem_cons_self c ts)
    show splitWsAux (c :: (ts ++ r)) acc = _
    rw [show splitWsAux (c :: (ts ++ r)) acc =
      (if c.isWhitespace = true then
        (if acc.isEmpty then splitWsAux (ts ++ r) [] else acc.reverse :: splitWsAux (ts ++ r) [])
      else splitWsAux (ts ++ r) (c :: acc)) from rfl]
    rw [hc, if_neg Bool.false_ne_true, ih r (c :: acc) (fun x hx => h x (List.mem_cons_of_mem c hx))]
    rw [List.reverse_cons, List.append_assoc, List.singleton_append]

/-- Every character of a well-formed token's text is non-whitespace. -/
theorem chars_no_ws (t : FToken) (h : t.wfb = true) :
    ∀ c ∈ t.chars, c.isWhitespace = false := by
  obtain ⟨_, hword, hcnt⟩ := wfb_unpack t h
  intro c hc
  unfold FToken.chars at hc
  rcases List.mem_append.mp hc with hs | hrest
  · exact isWordChar_not_ws c (hword c hs)
  · cases hcn : t.cnt with
    | none =>
      rw [hcn] at hrest
      cases hrest
    | some s =>
      rw [hcn] at hrest
      cases hrest with
      | head => decide
      | tail _ hrest2 =>
        rcases List.mem_append.mp hrest2 with hup | hcl
        · exact isCountChar_not_ws c ((hcnt s hcn).2 c hup)
        · cases hcl with
          | head => decide
          | tail _ h3 => cases h3

/-- The rendered token sequence splits back into the tokens' texts. -/
theorem splitWs_renderComp (ts : List FToken) (h : ts.all FToken.wfb = true) :
    splitWsAux (renderComp ts) [] = ts.map FToken.chars := by
  induction ts with
  | nil => rfl
  | cons t rest ih =>
    have h1 : t.wfb = true ∧ rest.all FToken.wfb = true := by
      rw [List.all_cons, Bool.and_eq_true] at h
      exact h
    have hne : t.chars ≠ [] := by
      obtain ⟨hne, _, _⟩ := wfb_unpack t h1.1
      intro he
      unfold FToken.chars at he
      exact hne (List.append_eq_nil.mp he).1
    cases rest with
    | nil =>
      show splitWsAux (renderComp [t]) [] = [t.chars]
      have h2 := splitWsAux_chunk t.chars [] [] (chars_no_ws t h1.1)
      rw [List.append_nil, List.append_nil] at h2
      rw [show renderComp [t] = t.chars from rfl, h2]
      show (if t.chars.reverse.isEmpty then [] else [t.chars.reverse.reverse]) = [t.chars]
      rw [if_neg (by simp [hne]), List.reverse_reverse]
    | cons t2 rest2 =>
      show splitWsAux (t.chars ++ ' ' :: renderComp (t2 :: rest2)) [] = _
      rw [splitWsAux_chunk t.chars _ [] (chars_no_ws t h1.1), List.append_nil]
      show (if (' ' : Char).isWhitespace = true then
          (if t.chars.reverse.isEmpty then splitWsAux (renderComp (t2 :: rest2)) []
            else t.chars.reverse.reverse :: splitWsAux (renderComp (t2 :: rest2)) [])
        else splitWsAux (renderComp (t2 :: rest2)) (' ' :: t.chars.reverse)) = _
      rw [if_pos (by decide), if_neg (by simp [hne]), List.reverse_reverse, ih h1.2]
      rfl

/-- The grammar parser accepts each well-formed rendered token. -/
theorem parseToken_chars (t : FToken) (h : t.wfb = true) :
    parseToken t.chars = some (t.sym, t.val) := by
  obtain ⟨hne, hword, hcnt⟩ := wfb_unpack t h
  cases hc : t.cnt with
  | none =>
    have hchars : t.chars = t.sym.data ++ [] := by simp [FToken.chars, hc]
    have hval : t.val = 1 := by simp [FToken.val, hc]
    have hsplit := takeWhile_append_all isWordChar t.sym.data []
      hword (by intro c cs hcc; cases hcc)
    rw [hchars, hval]
    unfold parseToken
    rw [hsplit.1, hsplit.2, if_neg (by simpa using hne)]
  | some s =>
    have hchars : t.chars = t.sym.data ++ ('(' :: (s.data ++ [')'])) := by
      simp [FToken.chars, hc]
    obtain ⟨hin, _⟩ := hcnt s hc
    obtain ⟨n, hn⟩ := Option.isSome_iff_exists.mp hin
    have hval : t.val = n := by simp [FToken.val, hc, hn]
    have hsplit := takeWhile_append_all isWordChar t.sym.data ('(' :: (s.data ++ [')']))
      hword (by intro c cs hcc; cases hcc; decide)
    rw [hchars]
    unfold parseToken
    rw [hsplit.1, hsplit.2, if_neg (by simpa using hne)]
    show (if '(' = '(' then
        if (s.data ++ [')']).getLast? = some ')' then
          match pyIntOfString (String.mk (s.data ++ [')']).dropLast) with
          | some n => some (String.mk t.sym.data, n)
          | none => none
        else none
      else none) = some (t.sym, t.val)
    rw [if_pos rfl, show (s.data ++ [')']).getLast? = some ')' from List.getLast?_concat _]
    rw [if_pos rfl, List.dropLast_concat]
    rw [show String.mk s.data = s from rfl, hn, hval]

/-- Mapping `parseToken` over the rendered tokens succeeds with the parsed
pairs. -/
theorem mapM_parseToken (ts : List FToken) (h : ts.all FToken.wfb = true) :
    (ts.map FToken.chars).mapM parseToken = some (ts.map (fun t => (t.sym, t.val))) := by
  induction ts with
  | nil => rfl
  | cons t rest ih =>
    have h1 : t.wfb = true ∧ rest.all FToken.wfb = true := by
      rw [List.all_cons, Bool.and_eq_true] at h
      exact h
    rw [List.map_cons, List.map_cons, List.mapM_cons, parseToken_chars t h1.1, ih h1.2]
    rfl

/-- The grammar parse of a rendered well-formed token sequence is the
token-by-token fold. -/
theorem specGrammarParse_render (ts : List FToken) (h : ts.all FToken.wfb = true) :
    specGrammarParse (String.mk (renderComp ts)) =
      ts.foldl (fun m t => dictInsert m t.sym t.val) [] := by
  unfold specGrammarParse
  rw [show (String.mk (renderComp ts)).data = renderComp ts from rfl]
  rw [splitWs_renderComp ts h, mapM_parseToken ts h]
  show List.foldl (fun m kv => dictInsert m kv.1 kv.2) [] (ts.map (fun t => (t.sym, t.val)))
    = ts.foldl (fun m t => dictInsert m t.sym t.val) []
  rw [List.foldl_map]

/-- C5 counterexample.  The claim says an unparseable composition string
yields an empty mapping rather than an error, and that the code's parse
equals the reference grammar.  The stored composition `"H(-)"` is
unparseable under the grammar (so `specGrammarParse` yields `[]`), but the
regex captures `"-"` as the count group and `int('-')` raises, so
`get_formula` fails with a `ValueError` instead of returning the empty
mapping; and on the grammar-unparseable `"H-1"` the code salvages a token
and returns a nonempty mapping. -/
theorem C5_formula_grammar_ce :
    specGrammarParse "H(-)" = [] ∧
    get_formula dbBadComp "X" = .error .valueError ∧
    specGrammarParse "H-1" = [] ∧
    buildFormulaMap (findallFormula "H-1") = .ok [("H", -1)] :=
  ⟨rfl, rfl, rfl, rfl⟩

/-- C5 (corrected).  On composition strings that are well-formed under the
reference grammar — whitespace-separated tokens, each a word-character
symbol optionally followed by a parenthesized signed integer count —
`get_formula`'s regex-based parse agrees with the grammar parse, with
absent counts read as 1 and later duplicate symbols overwriting earlier
ones; the empty string (the empty token sequence) yields the empty
mapping.  (Outside the grammar the two disagree: see the
counterexample.) -/
theorem C5_formula_grammar (ts : List FToken) (h : ts.all FToken.wfb = true) :
    (∀ db n r, _get_row_by_name db n = .ok r →
      r.composition = String.mk (renderComp ts) →
      get_formula db n = .ok (specGrammarParse r.composition)) ∧
    buildFormulaMap (findallFormula (String.mk (renderComp ts))) =
      .ok (specGrammarParse (String.mk (renderComp ts))) := by
  have hmain : buildFormulaMap (findallFormula (String.mk (renderComp ts))) =
      .ok (specGrammarParse (String.mk (renderComp ts))) := by
    rw [specGrammarParse_render ts h]
    rw [findallFormula_eq_scan, show (String.mk (renderComp ts)).data = renderComp ts from rfl]
    rw [scan_renderComp ts h]
    exact buildFormulaAux_tokens ts [] h
  constructor
  · intro db n r hres hcomp
    unfold get_formula
    rw [hres, bind_ok, hcomp]
    exact hmain
  · exact hmain

/-- C5 witness: the well-formed `Nitro` composition, where the code's
parse, the grammar parse, and the spec's §8 expected mapping
`{H: -1, N: 1, O: 2}` all agree. -/
theorem C5_formula_grammar_w :
    tsNitro.all FToken.wfb = true ∧
    get_formula dbT "Nitro" = .ok (specGrammarParse "H(-1) N O(2)") ∧
    specGrammarParse "H(-1) N O(2)" = [("H", -1), ("N", 1), ("O", 2)] := by
  refine ⟨by decide, ?_, by decide⟩
  exact (C5_formula_grammar tsNitro (by decide)).1 dbT "Nitro" nitroRow rfl (by decide)

end Unimoddb
